import Mathlib

/-
Verification of the mcp-phpunit repository: a shallow embedding of the
error formatter (src/ErrorFormatter/Formatter.py) and the MCP client's
patch engine and iteration loop (src/McpIntegration/McpClient.py),
together with theorems settling the frozen behavioural claims.

Strings are modelled as `List Char`; external collaborators (the PHP
syntax checker `php -l`, the syntax auto-repairer, the user prompt, the
filesystem and the test runner process) are abstracted as parameters.
-/

set_option maxRecDepth 4096

/-! ### Python string primitives -/

/-- Python whitespace characters recognised by `str.strip`, `str.split` and `\s`. -/
def isWs (c : Char) : Bool :=
  c = ' ' || c = '\t' || c = '\n' || c = '\r' || c = '\x0b' || c = '\x0c'

/-- Characters matched by the regex class `\w` (ASCII fragment). -/
def isWordChar (c : Char) : Bool :=
  c.isAlphanum || c = '_'

/-- Python `needle in hay` substring test. -/
def occursIn (needle : List Char) : List Char → Bool
  | [] => needle.isPrefixOf []
  | c :: rest => needle.isPrefixOf (c :: rest) || occursIn needle rest

/-- Fuel-driven core of `pyReplace`; the fuel is always at least the length
of the haystack, and the needle is nonempty. -/
def pyReplaceAux (needle repl : List Char) : Nat → List Char → List Char
  | 0, hay => hay
  | _ + 1, [] => []
  | fuel + 1, c :: rest =>
    if needle.isPrefixOf (c :: rest) then
      repl ++ pyReplaceAux needle repl fuel ((c :: rest).drop needle.length)
    else
      c :: pyReplaceAux needle repl fuel rest

/-- Python `hay.replace(needle, repl)`: replaces every occurrence,
left to right, non-overlapping; an empty needle interleaves `repl`
around every character. -/
def pyReplace (hay needle repl : List Char) : List Char :=
  if needle.isEmpty then
    repl ++ hay.foldr (fun c acc => c :: (repl ++ acc)) []
  else
    pyReplaceAux needle repl hay.length hay

/-- Python `s.strip()` with no argument: trim whitespace at both ends. -/
def pyStrip (l : List Char) : List Char :=
  ((l.dropWhile isWs).reverse.dropWhile isWs).reverse

/-- Python `s.strip(chars)`: trim any character of `s` at both ends. -/
def pyStripChars (chars l : List Char) : List Char :=
  ((l.dropWhile (chars.contains ·)).reverse.dropWhile (chars.contains ·)).reverse

/-- Python `s.split(sep)` for a single-character separator: keeps empty parts. -/
def splitOn1 (sep : Char) : List Char → List (List Char)
  | [] => [[]]
  | c :: rest =>
    if c = sep then [] :: splitOn1 sep rest
    else
      match splitOn1 sep rest with
      | [] => [[c]]
      | w :: ws => (c :: w) :: ws

/-- Python `s.split('\n')`. -/
def splitNl (l : List Char) : List (List Char) := splitOn1 '\n' l

/-- Fuel-driven core of `pySplitWs`. -/
def pySplitWsAux : Nat → List Char → List (List Char)
  | 0, _ => []
  | fuel + 1, l =>
    match l.dropWhile isWs with
    | [] => []
    | c :: rest =>
      ((c :: rest).takeWhile (fun x => !isWs x)) ::
        pySplitWsAux fuel ((c :: rest).dropWhile (fun x => !isWs x))

/-- Python `s.split()` with no argument: split on whitespace runs,
discarding empty parts. -/
def pySplitWs (l : List Char) : List (List Char) :=
  pySplitWsAux (l.length + 1) l

/-- Value of a list of decimal digit characters. -/
def digitsToNat (ds : List Char) : Nat :=
  ds.foldl (fun a c => a * 10 + (c.toNat - 48)) 0

/-- Python `int(s)` on a string: optional surrounding whitespace, optional
sign, then decimal digits; anything else raises (here: `none`). -/
def pyIntParse (l : List Char) : Option Int :=
  match pyStrip l with
  | '+' :: ds =>
    if !ds.isEmpty && ds.all Char.isDigit then some (digitsToNat ds : Int) else none
  | '-' :: ds =>
    if !ds.isEmpty && ds.all Char.isDigit then some (-(digitsToNat ds : Int)) else none
  | ds =>
    if !ds.isEmpty && ds.all Char.isDigit then some (digitsToNat ds : Int) else none

/-! ### ErrorFormatter: data model (Formatter.py) -/

/-- One PHPUnit test failure, mirroring class `PhpUnitError`. -/
structure PhpUnitError where
  message : List Char
  file : List Char
  line : Int
  testName : List Char
  errorType : List Char
  className : List Char
deriving DecidableEq

/-- An XML element as seen through `xml.etree.ElementTree`. -/
structure XElem where
  tag : List Char
  attrs : List (List Char × List Char)
  text : Option (List Char)
  children : List XElem

/-- Input to `parse_phpunit_xml`: either text that `ET.fromstring` rejects
with `ParseError`, or a parsed document tree. -/
inductive XmlInput where
  | malformed (raw : List Char)
  | wellFormed (root : XElem)

/-- All proper descendants of the elements of a forest, in document
(preorder) order; models the ElementTree descendant axis used by
`findall('.//tag')`. -/
def xDescList : List XElem → List XElem
  | [] => []
  | c :: rest => c :: (xDescList c.children ++ xDescList rest)
  termination_by l => sizeOf l
  decreasing_by
    all_goals cases c
    all_goals simp
    all_goals omega

/-- `element.get(key, default)`. -/
def attrGet (e : XElem) (k dflt : List Char) : List Char :=
  match e.attrs.find? (fun p => p.1 == k) with
  | some p => p.2
  | none => dflt

/-- `element.find('./tag')`: first direct child with the given tag. -/
def findChild (e : XElem) (t : List Char) : Option XElem :=
  e.children.find? (fun c => c.tag == t)

/-- The testcases visited by the nested
`findall('.//testsuite')` / `findall('.//testcase')` loops of
`parse_phpunit_xml`. -/
def allTestcases (root : XElem) : List XElem :=
  ((xDescList root.children).filter (fun e => e.tag == "testsuite".data)).flatMap
    (fun ts => (xDescList ts.children).filter (fun e => e.tag == "testcase".data))

/-- First match of the fallback regex `\.php:(\d+)` via `re.search`:
the earliest `.php:` literal followed by at least one digit; the captured
group is the maximal digit run. -/
def findPhpLine : List Char → Option Nat
  | [] => none
  | c :: rest =>
    if ".php:".data.isPrefixOf (c :: rest) then
      let ds := ((c :: rest).drop 5).takeWhile Char.isDigit
      if ds.isEmpty then findPhpLine rest else some (digitsToNat ds)
    else findPhpLine rest

/-- Processing of one `testcase` element inside `parse_phpunit_xml`:
returns `none` for a passing case, a failure record for a failing one,
and raises `ValueError` (as `Except.error`) when the `line` attribute is
not an integer, exactly as the uncaught `int(...)` call does. -/
def parseTestcase (tc : XElem) : Except (List Char) (Option PhpUnitError) :=
  let failure := findChild tc "failure".data
  let err := findChild tc "error".data
  match (match failure with | some f => some f | none => err) with
  | none => Except.ok none
  | some element =>
    let testName := attrGet tc "name".data []
    let className := attrGet tc "class".data []
    let file := attrGet tc "file".data []
    match pyIntParse (attrGet tc "line".data "0".data) with
    | none => Except.error "ValueError".data
    | some line0 =>
      let errorType := attrGet element "type".data []
      let message := match element.text with
        | some t => pyStrip t
        | none => []
      let line : Int :=
        if line0 = 0 ∧ message ≠ [] then
          match findPhpLine message with
          | some n => (n : Int)
          | none => line0
        else line0
      Except.ok (some ⟨message, file, line, testName, errorType, className⟩)

/-- `PhpUnitErrorFormatter.parse_phpunit_xml`: the Boolean in the result
records whether the XML-parse-error diagnostic was printed.  Only
`ET.ParseError` is caught; a `ValueError` from the `line` attribute
propagates to the caller. -/
def parsePhpunitXml : XmlInput → Except (List Char) (List PhpUnitError × Bool)
  | XmlInput.malformed _ => Except.ok ([], true)
  | XmlInput.wellFormed root => do
    let results ← (allTestcases root).mapM parseTestcase
    Except.ok (results.filterMap id, false)

/-! ### ErrorFormatter: batching (Formatter.py) -/

/-- The batch record built by `format_for_mcp`; `batchErrors` is the slice
`errors[index*size : index*size+size]` that `errors_by_file` then groups
by file. -/
structure McpBatch (α : Type) where
  index : Nat
  totalErrors : Nat
  batchSize : Nat
  hasMoreFlag : Bool
  batchErrors : List α
deriving DecidableEq

/-- `PhpUnitErrorFormatter.format_for_mcp` with `max_errors_per_batch = b`. -/
def formatForMcp {α : Type} (b : Nat) (errors : List α) (i : Nat) : McpBatch α :=
  let batchErrors := (errors.drop (i * b)).take b
  ⟨i, errors.length, batchErrors.length, decide (i * b + b < errors.length), batchErrors⟩

/-- `PhpUnitErrorFormatter.get_total_batches`. -/
def getTotalBatches (b total : Nat) : Nat := (total + b - 1) / b

/-- The grouping of a batch slice by file performed by `format_for_mcp`
(`errors_by_file`), preserving dict insertion order. -/
def groupByFile (errs : List PhpUnitError) : List (List Char × List PhpUnitError) :=
  errs.foldl
    (fun acc e =>
      if acc.any (fun p => p.1 == e.file) then
        acc.map (fun p => if p.1 == e.file then (p.1, p.2 ++ [e]) else p)
      else acc ++ [(e.file, [e])])
    []

/-! ### McpClient: path resolution (McpClient.py, apply_fix) -/

/-- One path component. -/
abbrev FName := List Char

/-- A filesystem path as its list of components, mirroring
`path.split(os.path.sep)`. -/
abbrev FPath := List FName

/-- The protected third-party directory name. -/
def vendorName : FName := "vendor".data

/-- `os.path.join` of components back into a string, used only for the
substring-level `"vendor" not in candidate_path` re-check of the walk. -/
def joinPath (p : FPath) : List Char :=
  List.intercalate ['/'] p

/-- One edit directive extracted from the oracle reply:
`{file_path, search, replace}`. -/
structure EditFix where
  filePath : List Char
  search : List Char
  replace : List Char
deriving DecidableEq

/-- Abstract filesystem: an existence test on paths plus the
`os.walk(project_path)` enumeration of (directory, filenames) pairs in
walk order. -/
structure Fs where
  isFile : FPath → Bool
  walk : List (FPath × List FName)

/-- `fix["file_path"].lstrip('./')`: drop every leading dot or slash. -/
def lstripDotSlash (l : List Char) : List Char :=
  l.dropWhile (fun c => c = '.' || c = '/')

/-- Split a path string on `'/'` (components as produced by
`path.split(os.path.sep)`, empties kept). -/
def splitSlash (l : List Char) : FPath := splitOn1 '/' l

/-- The recursive `os.walk` search of `apply_fix`: skip any directory with
a `vendor` component, and accept a directory containing the basename
unless the joined candidate string still contains `"vendor"` as a
substring. -/
def walkFind (basename : FName) : List (FPath × List FName) → Option FPath
  | [] => none
  | (dir, files) :: rest =>
    if decide (vendorName ∈ dir) then walkFind basename rest
    else if files.contains basename
        && !(occursIn vendorName (joinPath (dir ++ [basename]))) then
      some (dir ++ [basename])
    else walkFind basename rest

/-- File resolution of `apply_fix`: the three direct candidates (project
root, cwd-relative, absolute-from-cwd), each accepted only when it exists
and has no `vendor` component in the checked string; then the basename
fallbacks in `src/`, `tests/` and the recursive walk. -/
def resolveFix (fs : Fs) (root cwd : FPath) (filePath : List Char) : Option FPath :=
  let comps := splitSlash (lstripDotSlash filePath)
  let cand1 := root ++ comps
  if fs.isFile cand1 && !(decide (vendorName ∈ cand1)) then some cand1
  else if fs.isFile (cwd ++ comps) && !(decide (vendorName ∈ comps)) then some (cwd ++ comps)
  else if fs.isFile (cwd ++ comps) && !(decide (vendorName ∈ cwd ++ comps)) then
    some (cwd ++ comps)
  else
    let basename := comps.getLastD []
    let srcPath := root ++ ["src".data, basename]
    if fs.isFile srcPath then some srcPath
    else
      let testsPath := root ++ ["tests".data, basename]
      if fs.isFile testsPath then some testsPath
      else walkFind basename fs.walk

/-- `backup_path = f"{file_path}.bak"`: the backup lives beside the file,
its last component extended with `.bak`. -/
def bakPath : FPath → FPath
  | [] => [".bak".data]
  | [n] => [n ++ ".bak".data]
  | n :: m :: rest => n :: bakPath (m :: rest)

/-! ### McpClient: tiered matching (apply_fix) -/

/-- Literal keyword of the declaration regexes. -/
def functionKw : List Char := "function".data

/-- Match of `function\s+(\w+)` at the head of the input (`re.search`
step): returns the captured identifier. -/
def matchFnNameAt (l : List Char) : Option (List Char) :=
  if functionKw.isPrefixOf l then
    let r1 := l.drop 8
    let ws := r1.takeWhile isWs
    if ws.isEmpty then none
    else
      let name := (r1.drop ws.length).takeWhile isWordChar
      if name.isEmpty then none else some name
  else none

/-- `re.search(r'function\s+(\w+)', search)`: leftmost match.  The three
prefixed variants tried afterwards by `apply_fix` can only succeed when
this one does, so the extracted name is always this one. -/
def extractFunctionName : List Char → Option (List Char)
  | [] => none
  | c :: rest =>
    match matchFnNameAt (c :: rest) with
    | some n => some n
    | none => extractFunctionName rest

/-- Match of the declaration-body core
`function\s+NAME\s*\([^{]*\{.*?\}` (with `re.DOTALL`) at the head of the
input; returns the length of the match.  Each greedy run is followed by a
character disjoint from it, and `.*?` is the lazy run up to the first
closing brace, so the regex is this deterministic scan. -/
def matchCoreAt (name : List Char) (l : List Char) : Option Nat :=
  if functionKw.isPrefixOf l then
    let r1 := l.drop 8
    let ws1 := r1.takeWhile isWs
    if ws1.isEmpty then none
    else
      let r2 := r1.drop ws1.length
      if name.isPrefixOf r2 then
        let r3 := r2.drop name.length
        let ws2 := r3.takeWhile isWs
        match r3.drop ws2.length with
        | '(' :: r5 =>
          let nb := r5.takeWhile (fun c => c ≠ '\x7b')
          match r5.drop nb.length with
          | '\x7b' :: r7 =>
            let body := r7.takeWhile (fun c => c ≠ '\x7d')
            match r7.drop body.length with
            | '\x7d' :: _ =>
              some (8 + ws1.length + name.length + ws2.length + 1 + nb.length + 1
                + body.length + 1)
            | _ => none
          | _ => none
        | _ => none
      else none
  else none

/-- Match of `PRE\s+` followed by the declaration core, for the
`public`/`private`/`protected` method patterns. -/
def matchPrefixedAt (pre name : List Char) (l : List Char) : Option Nat :=
  if pre.isPrefixOf l then
    let r1 := l.drop pre.length
    let ws := r1.takeWhile isWs
    if ws.isEmpty then none
    else
      match matchCoreAt name (r1.drop ws.length) with
      | some n => some (pre.length + ws.length + n)
      | none => none
  else none

/-- Fuel-driven `re.finditer`: scan left to right, record each
non-overlapping match and resume after it. -/
def findMatchesAux (m : List Char → Option Nat) : Nat → List Char → List (List Char)
  | 0, _ => []
  | _ + 1, [] => []
  | fuel + 1, c :: rest =>
    match m (c :: rest) with
    | some 0 => [] :: findMatchesAux m fuel rest
    | some (n + 1) =>
      ((c :: rest).take (n + 1)) :: findMatchesAux m fuel ((c :: rest).drop (n + 1))
    | none => findMatchesAux m fuel rest

/-- `list(re.finditer(pattern, content, re.DOTALL))`, as matched texts. -/
def findMatches (content : List Char) (m : List Char → Option Nat) : List (List Char) :=
  findMatchesAux m content.length content

/-- The four declaration patterns tried in order by the method tier. -/
def methodPatterns (name : List Char) : List (List Char → Option Nat) :=
  [matchCoreAt name,
   matchPrefixedAt "public".data name,
   matchPrefixedAt "private".data name,
   matchPrefixedAt "protected".data name]

/-- The pattern loop of the method tier: the first pattern with exactly
one match supplies the matched text; a pattern with zero or several
matches is passed over (several prints a warning) and the next pattern is
tried. -/
def firstExactlyOne (content : List Char) : List (List Char → Option Nat) → Option (List Char)
  | [] => none
  | m :: rest =>
    match findMatches content m with
    | [mt] => some mt
    | _ => firstExactlyOne content rest

/-- Tier 2 of `apply_fix`: extract a method name from the search text and
find the unique declaration text to replace, if any. -/
def methodTierMatch (content search : List Char) : Option (List Char) :=
  match extractFunctionName search with
  | none => none
  | some name => firstExactlyOne content (methodPatterns name)

/-- Window scan of the line-block tier: the first index whose window
boundary lines contain the stripped first and last search lines. -/
def lineWindowIdx (cls sls : List (List Char)) : Option Nat :=
  if sls.length ≤ cls.length then
    (List.range (cls.length - sls.length + 1)).find? (fun i =>
      occursIn (pyStrip (sls.headD [])) (pyStrip (cls.getD i [])) &&
      occursIn (pyStrip (sls.getLastD [])) (pyStrip (cls.getD (i + sls.length - 1) [])))
  else none

/-- Tier 3 of `apply_fix`: line-block fuzzy matching over the stripped
contents, applicable only to multi-line search texts; yields the matched
block joined back with newlines. -/
def lineTierFind (content search : List Char) : Option (List Char) :=
  let sls := splitNl (pyStrip search)
  let cls := splitNl (pyStrip content)
  if 1 < sls.length then
    match lineWindowIdx cls sls with
    | some i => some (List.intercalate ['\n'] ((cls.drop i).take sls.length))
    | none => none
  else none

/-! ### McpClient: commit protocol (apply_fix) -/

/-- External collaborators of the commit path: `php -l` as a pass/fail
oracle with an error message, and `fix_php_syntax_errors` as an abstract
repair pass returning (is_fixed, fixed_content). -/
structure Oracle where
  checkOk : List Char → Bool
  checkMsg : List Char → List Char
  repair : List Char → List Char → Bool × List Char

/-- The operator's answer at the exact-tier prompt shown when a fix has
syntax errors that could not be auto-repaired (`EOFError` and any answer
other than `"1"` mean skip). -/
inductive ExactChoice where
  | applyAnyway
  | skip
deriving DecidableEq

/-- The operator's answer at the no-match prompt: full-file overwrite
(with the extra confirmation used when the replacement is invalid),
best-effort in-file repair, or skip (also `EOFError`). -/
inductive ManualChoice where
  | overwrite (confirm : Bool)
  | bestEffort
  | skip
deriving DecidableEq

/-- The operator interaction policy for one `apply_fix` call. -/
structure Ui where
  exactChoice : ExactChoice
  manualChoice : ManualChoice
deriving DecidableEq

/-- Result of one `apply_fix` call: its return value, the (path, content)
writes it performed in order, and the expected-versus-actual diagnostic
printed when no tier matched. -/
structure FixResult where
  ok : Bool
  writes : List (FPath × List Char)
  noMatchDiag : Option (List Char × List Char)
deriving DecidableEq

/-- The shared validate/auto-repair/write block of the three tiers.
`isExact` distinguishes the exact tier, which restores the file from the
backup when a repaired fix is still invalid and offers the apply-anyway
prompt when repair fails; the other tiers simply skip in those cases. -/
def tierCommit (o : Oracle) (ui : Ui) (p : FPath) (orig newC : List Char)
    (isExact : Bool) : FixResult :=
  let bw := (bakPath p, orig)
  if o.checkOk newC then ⟨true, [bw, (p, newC)], none⟩
  else
    let rp := o.repair newC (o.checkMsg newC)
    if rp.1 then
      if o.checkOk rp.2 then ⟨true, [bw, (p, rp.2)], none⟩
      else if isExact then ⟨false, [bw, (p, orig)], none⟩
      else ⟨false, [bw], none⟩
    else
      if isExact then
        match ui.exactChoice with
        | ExactChoice.applyAnyway => ⟨true, [bw, (p, newC)], none⟩
        | ExactChoice.skip => ⟨false, [bw], none⟩
      else ⟨false, [bw], none⟩

/-- The ordered repair substitutions offered by manual option 2. -/
def bestEffortPats : List (List Char × List Char) :=
  [(");)".data, ");".data),
   ("public public".data, "public".data),
   ("protected public".data, "protected".data),
   ("private public".data, "private".data),
   ("public protected".data, "protected".data),
   ("public private".data, "private".data)]

/-- Manual option 2: the first listed pattern present in the file whose
substitution makes the content pass the syntax check. -/
def tryBestEffort (o : Oracle) (content : List Char) : Option (List Char) :=
  bestEffortPats.findSome? (fun pr =>
    if occursIn pr.1 content then
      let fixedC := pyReplace content pr.1 pr.2
      if o.checkOk fixedC then some fixedC else none
    else none)

/-- The no-match tail of `apply_fix`: print the expected/actual
diagnostic, then act on the operator's choice. -/
def manualFallback (o : Oracle) (ui : Ui) (p : FPath) (content search repl : List Char) :
    FixResult :=
  let bw := (bakPath p, content)
  let diag := some (search, content)
  match ui.manualChoice with
  | ManualChoice.overwrite confirm =>
    if o.checkOk repl then ⟨true, [bw, (p, repl)], diag⟩
    else if confirm then ⟨true, [bw, (p, repl)], diag⟩
    else ⟨false, [bw], diag⟩
  | ManualChoice.bestEffort =>
    match tryBestEffort o content with
    | some fixedC => ⟨true, [bw, (p, fixedC)], diag⟩
    | none => ⟨false, [bw], diag⟩
  | ManualChoice.skip => ⟨false, [bw], diag⟩

/-- The edit phase of `apply_fix` on the resolved file: write the backup,
then try the exact-substring, method-boundary and line-block tiers in
order (each replacement is a Python `str.replace`, all occurrences), and
fall back to the manual options when none matches. -/
def applyFixResolved (o : Oracle) (ui : Ui) (p : FPath) (content search repl : List Char) :
    FixResult :=
  if occursIn search content then
    tierCommit o ui p content (pyReplace content search repl) true
  else
    match methodTierMatch content search with
    | some matched => tierCommit o ui p content (pyReplace content matched repl) false
    | none =>
      match lineTierFind content search with
      | some block => tierCommit o ui p content (pyReplace content block repl) false
      | none => manualFallback o ui p content search repl

/-- `McpClient.apply_fix`: resolve the target path, then run the edit
phase on the file's content; an unresolvable target fails with no write. -/
def applyFix (o : Oracle) (ui : Ui) (fs : Fs) (root cwd : FPath)
    (readFile : FPath → List Char) (fix : EditFix) : FixResult :=
  match resolveFix fs root cwd fix.filePath with
  | none => ⟨false, [], none⟩
  | some p => applyFixResolved o ui p (readFile p) fix.search fix.replace

/-- The last content written to `p`, if any. -/
def lastWriteTo (p : FPath) (writes : List (FPath × List Char)) : Option (List Char) :=
  writes.foldl (fun acc w => if w.1 = p then some w.2 else acc) none

/-- The content of `p` after the writes, starting from `orig`. -/
def finalContent (orig : List Char) (p : FPath) (writes : List (FPath × List Char)) :
    List Char :=
  (lastWriteTo p writes).getD orig

/-! ### McpClient: oracle reply handling (process_phpunit_errors) -/

/-- The outcome of one `send_to_claude` call as consumed by the loop:
its status, the free-text reply, and the directives parsed from it. -/
structure OracleReply where
  success : Bool
  message : List Char
  fixes : List EditFix
deriving DecidableEq

/-- The filename scan run when no structured fixes were parsed: for every
line of the reply containing `.php`, every whitespace-separated part
containing `.php` is stripped of surrounding punctuation and kept when it
still ends in `.php`. -/
def scanPotentialFiles (suggestion : List Char) : List (List Char) :=
  (splitNl suggestion).flatMap (fun line =>
    if occursIn ".php".data line then
      (pySplitWs line).filterMap (fun part =>
        if occursIn ".php".data part then
          let fn := pyStripChars ['.', '"', '\x27', '(', ')', ',', ';', ':'] part
          if ".php".data.isSuffixOf fn then some fn else none
        else none)
    else [])

/-- The per-batch reply handling of `process_phpunit_errors`: with parsed
fixes and an affirmative apply decision (auto mode, a `y` answer, or the
`EOFError` fallback) the fixes are applied; with zero parsed fixes only
the advisory filename scan is reported; an error reply is only printed.
Returns (fixes applied, filenames reported). -/
def handleOracleReply (applyOk : EditFix → Bool) (applyDecision : Bool)
    (reply : OracleReply) : List EditFix × List (List Char) :=
  if reply.success then
    if reply.fixes.isEmpty then
      ([], scanPotentialFiles reply.message)
    else
      (if applyDecision then reply.fixes.filter applyOk else [], [])
  else ([], [])

/-! ### McpClient: iteration loop (process_phpunit_errors) -/

/-- The external collaborators of the loop, indexed by global counters:
`exitCode k` is the exit status of the k-th test-runner invocation
(1-based), `numBatches k` the number of failure batches formatted from
that invocation's report, and the remaining fields describe the j-th
oracle call (0-based) and its apply decisions. -/
structure Collab where
  exitCode : Nat → Int
  numBatches : Nat → Nat
  respSuccess : Nat → Bool
  respFixes : Nat → List EditFix
  applyDecision : Nat → Bool
  applyOk : Nat → EditFix → Bool

/-- Processing of one batch: `send_to_claude` itself runs PHPUnit once to
capture error output, and when at least one parsed fix was applied the
loop runs PHPUnit once more to show progress.  Arguments and results are
(runner invocations, oracle calls). -/
def processOneBatch (cb : Collab) (n j : Nat) : Nat × Nat :=
  let n1 := n + 1
  if cb.respSuccess j then
    let fixes := cb.respFixes j
    if fixes.isEmpty then (n1, j + 1)
    else if cb.applyDecision j then
      if (fixes.filter (cb.applyOk j)).isEmpty then (n1, j + 1)
      else (n1 + 1, j + 1)
    else (n1, j + 1)
  else (n1, j + 1)

/-- Process `k` batches in sequence. -/
def processBatchesAux (cb : Collab) : Nat → Nat → Nat → Nat × Nat
  | 0, n, j => (n, j)
  | k + 1, n, j =>
    let r := processOneBatch cb n j
    processBatchesAux cb k r.1 r.2

/-- One iteration of the loop body: `run_phpunit_and_get_output` (one
runner invocation), then `run_phpunit_tests` (a second); on success the
loop returns, otherwise every batch of the report is processed.  Returns
(converged, runner invocations, oracle calls). -/
def oneIteration (cb : Collab) (n j : Nat) : Bool × Nat × Nat :=
  let n1 := n + 1
  let rc := cb.exitCode n1
  let n2 := n1 + 1
  if rc = 0 then (true, n2, j)
  else
    let r := processBatchesAux cb (cb.numBatches n1) n2 j
    (false, r.1, r.2)

/-- The `while iteration < max_iterations` loop, counting runner
invocations. -/
def processLoop (cb : Collab) : Nat → Nat → Nat → Bool × Nat
  | 0, n, _ => (false, n)
  | m + 1, n, j =>
    match oneIteration cb n j with
    | (true, n', _) => (true, n')
    | (false, n', j') => processLoop cb m n' j'

/-- `McpClient.process_phpunit_errors`: returns (all tests pass, total
runner invocations performed). -/
def processPhpunitErrors (cb : Collab) (maxIterations : Nat) : Bool × Nat :=
  processLoop cb maxIterations 0 0

/-! ### Spec-modelled reference definitions -/

/-- Modelled from the spec: the first-occurrence-only replacement that the
spec's exact-substring tier describes ("replace first occurrence"); to be
compared with the source's `pyReplace`. -/
def specReplaceFirst (needle repl : List Char) : List Char → List Char
  | [] => if needle.isEmpty then repl else []
  | c :: rest =>
    if needle.isPrefixOf (c :: rest) then repl ++ (c :: rest).drop needle.length
    else c :: specReplaceFirst needle repl rest

/-! ### Concrete instances used by witnesses and counterexamples -/

/-- Syntax oracle that accepts everything and a repairer that never fires. -/
def oTrue : Oracle := ⟨fun _ => true, fun _ => [], fun c _ => (false, c)⟩

/-- Operator policy that declines every prompt. -/
def uiSkip : Ui := ⟨ExactChoice.skip, ManualChoice.skip⟩

/-- A one-file project filesystem for the resolution witness. -/
def fsW : Fs :=
  ⟨fun q => decide (q = ["r".data, "A.php".data]), []⟩

/-- A directive targeting the witness file. -/
def fixW : EditFix := ⟨"A.php".data, "x".data, "y".data⟩

/-- A directive whose search text occurs twice in the target. -/
def fixAA : EditFix := ⟨"t.php".data, "a".data, "b".data⟩

/-- Target content with two occurrences of the search text. -/
def contentAA : List Char := "aa".data

/-- File content holding two declarations of the method `f`, one with the
`public` modifier. -/
def c9Content : List Char :=
  "public function f()\x7bA\x7d function f()\x7bB\x7d".data

/-- Search text mentioning method `f` that matches nowhere verbatim. -/
def c9Search : List Char := "function f(x)\x7bold\x7d".data

/-- Replacement text of the method-tier counterexample. -/
def c9Repl : List Char := "public function f()\x7bC\x7d".data

/-- The declaration text matched by the `public` pattern. -/
def c9Matched : List Char := "public function f()\x7bA\x7d".data

/-- A failing testcase whose `line` attribute is not an integer. -/
def c6Case : XElem :=
  ⟨"testcase".data, [("name".data, "t".data), ("line".data, "abc".data)], none,
   [⟨"failure".data, [("type".data, "E".data)], some "boom".data, []⟩]⟩

/-- A well-formed report whose testcase has a non-integer `line`
attribute. -/
def c6Tree : XElem :=
  ⟨"testsuites".data, [], none, [⟨"testsuite".data, [], none, [c6Case]⟩]⟩

/-- A failing testcase with `line="0"` and the given failure message. -/
def tcLineZero (msg : List Char) : XElem :=
  ⟨"testcase".data,
   [("name".data, "t".data), ("class".data, "C".data),
    ("file".data, "F.php".data), ("line".data, "0".data)],
   none,
   [⟨"failure".data, [("type".data, "E".data)], some msg, []⟩]⟩

/-- A well-formed report whose failing testcase has `line="0"` and the
given failure message; used to study the fallback extraction. -/
def mkLineZeroCase (msg : List Char) : XElem :=
  ⟨"testsuites".data, [], none,
    [⟨"testsuite".data, [], none, [tcLineZero msg]⟩]⟩

/-- The line number the code's fallback gives to a message: the first
`\.php:(\d+)` match, or 0. -/
def fallbackLine (msg : List Char) : Int :=
  match findPhpLine msg with
  | some n => (n : Int)
  | none => 0

/-- A message whose only path-like token has a non-`.php` extension. -/
def c7Msg : List Char := "failed at Foo.ext:42".data

/-- A message with two `.php` tokens, the first numbered 10, the last 42. -/
def c7TwoMsg : List Char := "A.php:10 then B.php:42".data

/-- Collaborators in which every test run fails and yields no batches. -/
def cbAlwaysFail : Collab :=
  ⟨fun _ => 1, fun _ => 0, fun _ => false, fun _ => [], fun _ => false, fun _ _ => false⟩

/-- An oracle reply with no parsable directives that mentions a file. -/
def replyNoFixes : OracleReply :=
  ⟨true, "Please fix Calculator.php first.".data, []⟩

/-- A directive whose search text matches no tier in the `xyz` file. -/
def fixNoMatch : EditFix := ⟨"A.php".data, "nomatch".data, "r".data⟩

/-! ### Basic lemmas about the embedding -/

theorem xDescList_nil : xDescList [] = [] := by
  rw [xDescList]

theorem xDescList_cons (c : XElem) (rest : List XElem) :
    xDescList (c :: rest) = c :: (xDescList c.children ++ xDescList rest) := by
  rw [xDescList]

theorem bakPath_ne_nil : ∀ p : FPath, bakPath p ≠ []
  | [] => by simp [bakPath]
  | [_] => by simp [bakPath]
  | _ :: _ :: _ => by simp [bakPath]

theorem bakPath_dropLast : ∀ p : FPath, (bakPath p).dropLast = p.dropLast
  | [] => by simp [bakPath]
  | [n] => by simp [bakPath]
  | n :: m :: rest => by
    rw [bakPath, List.dropLast_cons_of_ne_nil (bakPath_ne_nil (m :: rest)),
      List.dropLast_cons₂, bakPath_dropLast (m :: rest)]

theorem bakPath_ne : ∀ p : FPath, bakPath p ≠ p
  | [] => by simp [bakPath]
  | [n] => by
    rw [bakPath]
    intro h
    injection h with h1 _
    have hlen := congrArg List.length h1
    have h4 : (".bak".data).length = 4 := rfl
    rw [List.length_append, h4] at hlen
    omega
  | n :: m :: rest => by
    rw [bakPath]
    intro h
    injection h with h1 h2
    exact bakPath_ne (m :: rest) h2

theorem not_mem_dropLast_of_not_mem {a : FName} {l : FPath} (h : a ∉ l) :
    a ∉ l.dropLast :=
  fun hm => h (List.dropLast_subset l hm)

/-! ### The protected zone: resolution lemmas -/

theorem walkFind_vendor_free (w : List (FPath × List FName)) (bn : FName) (p : FPath)
    (h : walkFind bn w = some p) : vendorName ∉ p.dropLast := by
  induction w with
  | nil => simp [walkFind] at h
  | cons hd rest ih =>
    obtain ⟨dir, files⟩ := hd
    rw [walkFind] at h
    by_cases hv : decide (vendorName ∈ dir) = true
    · rw [if_pos hv] at h
      exact ih h
    · rw [if_neg hv] at h
      by_cases hf :
          (files.contains bn && !(occursIn vendorName (joinPath (dir ++ [bn])))) = true
      · rw [if_pos hf] at h
        cases h
        rw [List.dropLast_concat]
        simpa using hv
      · rw [if_neg hf] at h
        exact ih h

theorem resolveFix_vendor_free (fs : Fs) (root cwd : FPath) (fp : List Char) (p : FPath)
    (hr : vendorName ∉ root) (hc : vendorName ∉ cwd)
    (h : resolveFix fs root cwd fp = some p) : vendorName ∉ p.dropLast := by
  simp only [resolveFix] at h
  split at h
  next hcond =>
    cases h
    apply not_mem_dropLast_of_not_mem
    have h2 := (Bool.and_eq_true _ _).mp hcond |>.2
    simpa using h2
  split at h
  next hcond =>
    cases h
    apply not_mem_dropLast_of_not_mem
    have h2 := (Bool.and_eq_true _ _).mp hcond |>.2
    rw [Bool.not_eq_eq_eq_not, Bool.not_true, decide_eq_false_iff_not] at h2
    intro hm
    rcases List.mem_append.mp hm with hm | hm
    · exact hc hm
    · exact h2 hm
  split at h
  next hcond =>
    cases h
    apply not_mem_dropLast_of_not_mem
    have h2 := (Bool.and_eq_true _ _).mp hcond |>.2
    simpa using h2
  split at h
  next hcond =>
    cases h
    have hstep : (root ++ ["src".data, splitSlash (lstripDotSlash fp) |>.getLastD []]).dropLast
        = root ++ ["src".data] := by
      rw [show root ++ ["src".data, splitSlash (lstripDotSlash fp) |>.getLastD []]
          = (root ++ ["src".data]) ++ [splitSlash (lstripDotSlash fp) |>.getLastD []] by simp]
      exact List.dropLast_concat
    rw [hstep]
    intro hm
    rcases List.mem_append.mp hm with hm | hm
    · exact hr hm
    · rw [List.mem_singleton] at hm
      exact absurd hm (by decide)
  split at h
  next hcond =>
    cases h
    have hstep : (root ++ ["tests".data, splitSlash (lstripDotSlash fp) |>.getLastD []]).dropLast
        = root ++ ["tests".data] := by
      rw [show root ++ ["tests".data, splitSlash (lstripDotSlash fp) |>.getLastD []]
          = (root ++ ["tests".data]) ++ [splitSlash (lstripDotSlash fp) |>.getLastD []] by simp]
      exact List.dropLast_concat
    rw [hstep]
    intro hm
    rcases List.mem_append.mp hm with hm | hm
    · exact hr hm
    · rw [List.mem_singleton] at hm
      exact absurd hm (by decide)
  exact walkFind_vendor_free _ _ _ h

/-! ### Write-target lemmas for the edit phase -/

theorem tierCommit_writes (o : Oracle) (ui : Ui) (p : FPath) (orig newC : List Char)
    (isExact : Bool) :
    ∀ w ∈ (tierCommit o ui p orig newC isExact).writes, w.1 = p ∨ w.1 = bakPath p := by
  intro w hw
  unfold tierCommit at hw
  by_cases h1 : o.checkOk newC = true
  · simp [h1] at hw
    rcases hw with h | h <;> simp [h]
  · by_cases h2 : (o.repair newC (o.checkMsg newC)).1 = true
    · by_cases h3 : o.checkOk (o.repair newC (o.checkMsg newC)).2 = true
      · simp [h1, h2, h3] at hw
        rcases hw with h | h <;> simp [h]
      · cases isExact
        · simp [h1, h2, h3] at hw
          simp [hw]
        · simp [h1, h2, h3] at hw
          rcases hw with h | h <;> simp [h]
    · cases isExact
      · simp [h1, h2] at hw
        simp [hw]
      · cases hu : ui.exactChoice
        · simp [h1, h2, hu] at hw
          rcases hw with h | h <;> simp [h]
        · simp [h1, h2, hu] at hw
          simp [hw]

theorem manualFallback_writes (o : Oracle) (ui : Ui) (p : FPath)
    (content search repl : List Char) :
    ∀ w ∈ (manualFallback o ui p content search repl).writes, w.1 = p ∨ w.1 = bakPath p := by
  intro w hw
  unfold manualFallback at hw
  cases hm : ui.manualChoice with
  | overwrite confirm =>
    simp only [hm] at hw
    by_cases h1 : o.checkOk repl = true
    · simp [h1] at hw
      rcases hw with h | h <;> simp [h]
    · cases confirm
      · simp [h1] at hw
        simp [hw]
      · simp [h1] at hw
        rcases hw with h | h <;> simp [h]
  | bestEffort =>
    simp only [hm] at hw
    cases hb : tryBestEffort o content
    · simp [hb] at hw
      simp [hw]
    · simp [hb] at hw
      rcases hw with h | h <;> simp [h]
  | skip =>
    simp [hm] at hw
    simp [hw]

theorem applyFixResolved_writes (o : Oracle) (ui : Ui) (p : FPath)
    (content search repl : List Char) :
    ∀ w ∈ (applyFixResolved o ui p content search repl).writes, w.1 = p ∨ w.1 = bakPath p := by
  intro w hw
  unfold applyFixResolved at hw
  by_cases h1 : occursIn search content = true
  · rw [if_pos h1] at hw
    exact tierCommit_writes _ _ _ _ _ _ w hw
  · rw [if_neg h1] at hw
    cases hm : methodTierMatch content search
    · rw [hm] at hw
      cases hl : lineTierFind content search
      · rw [hl] at hw
        exact manualFallback_writes _ _ _ _ _ _ w hw
      · rw [hl] at hw
        exact tierCommit_writes _ _ _ _ _ _ w hw
    · rw [hm] at hw
      exact tierCommit_writes _ _ _ _ _ _ w hw

/-! ### Claim theorems -/

/-- Claim C1: for every edit directive, `apply_fix` never resolves its
target to (and never writes to) a file lying under a `vendor` directory
component, and when resolution fails the directive fails with no file
modified.  The project root and working directory are assumed to lie
outside any vendor tree. -/
theorem c1_protected_zone (o : Oracle) (ui : Ui) (fs : Fs) (root cwd : FPath)
    (readFile : FPath → List Char) (fix : EditFix)
    (hr : vendorName ∉ root) (hc : vendorName ∉ cwd) :
    (∀ p, resolveFix fs root cwd fix.filePath = some p → vendorName ∉ p.dropLast)
    ∧ (∀ w ∈ (applyFix o ui fs root cwd readFile fix).writes, vendorName ∉ w.1.dropLast)
    ∧ (resolveFix fs root cwd fix.filePath = none →
        applyFix o ui fs root cwd readFile fix = ⟨false, [], none⟩) := by
  refine ⟨fun p hp => resolveFix_vendor_free fs root cwd fix.filePath p hr hc hp, ?_, ?_⟩
  · intro w hw
    unfold applyFix at hw
    cases hres : resolveFix fs root cwd fix.filePath with
    | none =>
      rw [hres] at hw
      simp at hw
    | some p =>
      rw [hres] at hw
      rcases applyFixResolved_writes _ _ _ _ _ _ w hw with h | h
      · rw [h]
        exact resolveFix_vendor_free fs root cwd fix.filePath p hr hc hres
      · rw [h, bakPath_dropLast]
        exact resolveFix_vendor_free fs root cwd fix.filePath p hr hc hres
  · intro hnone
    unfold applyFix
    rw [hnone]

/-- Witness for C1 at a concrete one-file project. -/
theorem c1_protected_zone_witness :
    vendorName ∉ (["r".data, "A.php".data] : FPath).dropLast :=
  (c1_protected_zone oTrue uiSkip fsW ["r".data] ["c".data] (fun _ => []) fixW
      (by decide) (by decide)).1 ["r".data, "A.php".data] (by decide)

/-- Claim C2: a directive whose search text occurs verbatim in the
resolved file and whose replacement passes the syntax check commits a
file whose final content is `original.replace(search, replace)` (Python
semantics, all occurrences), with the backup byte-identical to the
pre-edit content. -/
theorem c2_exact_commit (o : Oracle) (ui : Ui) (fs : Fs) (root cwd : FPath)
    (readFile : FPath → List Char) (fix : EditFix) (p : FPath)
    (hres : resolveFix fs root cwd fix.filePath = some p)
    (hocc : occursIn fix.search (readFile p) = true)
    (hval : o.checkOk (pyReplace (readFile p) fix.search fix.replace) = true) :
    (applyFix o ui fs root cwd readFile fix).ok = true
    ∧ finalContent (readFile p) p (applyFix o ui fs root cwd readFile fix).writes
        = pyReplace (readFile p) fix.search fix.replace
    ∧ lastWriteTo (bakPath p) (applyFix o ui fs root cwd readFile fix).writes
        = some (readFile p) := by
  have hfix : applyFix o ui fs root cwd readFile fix =
      ⟨true, [(bakPath p, readFile p),
        (p, pyReplace (readFile p) fix.search fix.replace)], none⟩ := by
    simp only [applyFix, hres]
    unfold applyFixResolved
    rw [if_pos hocc]
    unfold tierCommit
    rw [if_pos hval]
  rw [hfix]
  refine ⟨rfl, ?_, ?_⟩
  · unfold finalContent lastWriteTo
    simp [bakPath_ne p]
  · unfold lastWriteTo
    simp [Ne.symm (bakPath_ne p)]

/-- Witness for C2: content `xx`, search `x`, replace `y`. -/
theorem c2_exact_commit_witness :
    (applyFix oTrue uiSkip fsW ["r".data] ["c".data] (fun _ => "xx".data) fixW).ok = true :=
  (c2_exact_commit oTrue uiSkip fsW ["r".data] ["c".data] (fun _ => "xx".data) fixW
      ["r".data, "A.php".data] (by decide) (by decide) (by decide)).1

/-- Claim C3 counterexample: with content `aa`, search `a` and replace
`b`, the exact tier commits `bb`, replacing both occurrences, whereas a
first-occurrence-only replacement would give `ba`. -/
theorem c3_counterexample :
    occursIn "a".data contentAA = true
    ∧ finalContent contentAA ["t.php".data]
        (applyFixResolved oTrue uiSkip ["t.php".data] contentAA "a".data "b".data).writes
      = "bb".data
    ∧ specReplaceFirst "a".data "b".data contentAA = "ba".data
    ∧ ("bb".data : List Char) ≠ "ba".data := by
  decide

/-- Claim C3 amended: in the exact-substring tier every occurrence of the
search text is replaced, following Python `str.replace`, not only the
first. -/
theorem c3_amended_all_occurrences (o : Oracle) (ui : Ui) (p : FPath)
    (content search repl : List Char)
    (hocc : occursIn search content = true)
    (hval : o.checkOk (pyReplace content search repl) = true) :
    finalContent content p (applyFixResolved o ui p content search repl).writes
      = pyReplace content search repl := by
  unfold applyFixResolved
  rw [if_pos hocc]
  unfold tierCommit
  rw [if_pos hval]
  unfold finalContent lastWriteTo
  simp [bakPath_ne p]

/-- Witness for the amended C3 at the double-occurrence example. -/
theorem c3_amended_witness :
    finalContent contentAA ["u.php".data]
      (applyFixResolved oTrue uiSkip ["u.php".data] contentAA "a".data "b".data).writes
      = pyReplace contentAA "a".data "b".data :=
  c3_amended_all_occurrences oTrue uiSkip ["u.php".data] contentAA "a".data "b".data
    (by decide) (by decide)

/-- Claim C4: when no tier matches and the operator declines the manual
options (or input is unavailable), `apply_fix` reports failure with the
expected-versus-actual diagnostic and the target file keeps its pre-call
content. -/
theorem c4_no_match_untouched (o : Oracle) (ui : Ui) (fs : Fs) (root cwd : FPath)
    (readFile : FPath → List Char) (fix : EditFix) (p : FPath)
    (hres : resolveFix fs root cwd fix.filePath = some p)
    (h1 : occursIn fix.search (readFile p) = false)
    (h2 : methodTierMatch (readFile p) fix.search = none)
    (h3 : lineTierFind (readFile p) fix.search = none)
    (h4 : ui.manualChoice = ManualChoice.skip) :
    (applyFix o ui fs root cwd readFile fix).ok = false
    ∧ (applyFix o ui fs root cwd readFile fix).noMatchDiag
        = some (fix.search, readFile p)
    ∧ (applyFix o ui fs root cwd readFile fix).writes = [(bakPath p, readFile p)]
    ∧ finalContent (readFile p) p (applyFix o ui fs root cwd readFile fix).writes
        = readFile p := by
  have hfix : applyFix o ui fs root cwd readFile fix =
      ⟨false, [(bakPath p, readFile p)], some (fix.search, readFile p)⟩ := by
    simp only [applyFix, hres]
    unfold applyFixResolved
    rw [if_neg (by simp [h1]), h2, h3]
    unfold manualFallback
    rw [h4]
  rw [hfix]
  refine ⟨rfl, rfl, rfl, ?_⟩
  unfold finalContent lastWriteTo
  simp [bakPath_ne p]

/-- Witness for C4 on a file with no matching tier. -/
theorem c4_no_match_untouched_witness :
    (applyFix oTrue uiSkip fsW ["r".data] ["c".data] (fun _ => "xyz".data) fixNoMatch).ok
      = false :=
  (c4_no_match_untouched oTrue uiSkip fsW ["r".data] ["c".data] (fun _ => "xyz".data)
      fixNoMatch ["r".data, "A.php".data]
      (by decide) (by decide) (by decide) (by decide) rfl).1

/-! ### Batcher lemmas and claim C5 -/

theorem ceilStep (b : Nat) (hb : 0 < b) (N : Nat) (hN : 1 ≤ N) :
    (N + b - 1) / b = (N - b + b - 1) / b + 1 := by
  rcases le_or_lt N b with hle | hgt
  · have h1 : N - b = 0 := by omega
    rw [h1]
    have e1 : N + b - 1 = (N - 1) + b := by omega
    rw [e1, Nat.add_div_right _ hb]
    have d1 : (N - 1) / b = 0 := Nat.div_eq_of_lt (by omega)
    have d2 : (0 + b - 1) / b = 0 := Nat.div_eq_of_lt (by omega)
    rw [d1, d2]
  · have e1 : N + b - 1 = (N - 1 - b) + b + b := by omega
    have e2 : N - b + b - 1 = (N - 1 - b) + b := by omega
    rw [e1, e2, Nat.add_div_right _ hb, Nat.add_div_right _ hb]

theorem joinSlicesAux {α : Type} (b : Nat) (hb : 0 < b) :
    ∀ (n : Nat) (l : List α), l.length ≤ n →
      ((List.range (getTotalBatches b l.length)).map
        (fun i => (l.drop (i * b)).take b)).flatten = l := by
  intro n
  induction n with
  | zero =>
    intro l hl
    have hnil : l = [] := List.length_eq_zero.mp (Nat.le_zero.mp hl)
    subst hnil
    unfold getTotalBatches
    rw [Nat.div_eq_of_lt (by simp; omega)]
    simp
  | succ n ih =>
    intro l hl
    cases l with
    | nil =>
      unfold getTotalBatches
      rw [Nat.div_eq_of_lt (by simp; omega)]
      simp
    | cons x xs =>
      have ht : getTotalBatches b (x :: xs).length
          = getTotalBatches b ((x :: xs).drop b).length + 1 := by
        unfold getTotalBatches
        rw [List.length_drop]
        exact ceilStep b hb _ (by simp)
      rw [ht, List.range_succ_eq_map, List.map_cons, List.flatten_cons, List.map_map]
      have hmap :
          ((List.range (getTotalBatches b ((x :: xs).drop b).length)).map
            ((fun i => ((x :: xs).drop (i * b)).take b) ∘ Nat.succ))
          = (List.range (getTotalBatches b ((x :: xs).drop b).length)).map
            (fun i => (((x :: xs).drop b).drop (i * b)).take b) := by
        apply List.map_congr_left
        intro i _
        simp only [Function.comp]
        congr 1
        rw [List.drop_drop]
        congr 1
        have : Nat.succ i * b = i * b + b := Nat.succ_mul i b
        omega
      rw [hmap, Nat.zero_mul, List.drop_zero]
      rw [ih ((x :: xs).drop b)
        (by simp only [List.length_drop, List.length_cons] at hl ⊢; omega)]
      exact List.take_append_drop b (x :: xs)

/-- Claim C5: for every failure list and batch size `b > 0`,
`get_total_batches` is the ceiling of `length / b` (characterised by its
Galois property), the batch slices partition the list in order with no
overlap and no gaps, each batch has size at most `b`, and `has_more`
holds exactly for the non-final batches. -/
theorem c5_batcher {α : Type} (b : Nat) (l : List α) (hb : 0 < b) :
    (∀ k, getTotalBatches b l.length ≤ k ↔ l.length ≤ b * k)
    ∧ ((List.range (getTotalBatches b l.length)).map
        (fun i => (formatForMcp b l i).batchErrors)).flatten = l
    ∧ (∀ i, (formatForMcp b l i).batchErrors = (l.drop (i * b)).take b
        ∧ (formatForMcp b l i).batchErrors.length ≤ b)
    ∧ (∀ i, (formatForMcp b l i).hasMoreFlag = true
        ↔ i + 1 < getTotalBatches b l.length) := by
  refine ⟨?_, ?_, ?_, ?_⟩
  · intro k
    unfold getTotalBatches
    rw [Nat.div_le_iff_le_mul_add_pred hb]
    omega
  · have h := joinSlicesAux b hb l.length l (le_refl _)
    simpa [formatForMcp] using h
  · intro i
    constructor
    · simp [formatForMcp]
    · simp only [formatForMcp]
      exact List.length_take_le b _
  · intro i
    have hch : getTotalBatches b l.length ≤ i + 1 ↔ l.length ≤ i * b + b := by
      unfold getTotalBatches
      rw [Nat.div_le_iff_le_mul_add_pred hb]
      have hm : b * (i + 1) = i * b + b := by ring
      omega
    simp only [formatForMcp, decide_eq_true_eq]
    constructor
    · intro hlt
      by_contra hcon
      push_neg at hcon
      have := hch.mp hcon
      omega
    · intro hlt
      by_contra hcon
      push_neg at hcon
      have := hch.mpr hcon
      omega

/-- Witness for C5: seven failures in batches of three give slices
[3, 3, 1] joining back to the original list. -/
theorem c5_batcher_witness :
    ((List.range (getTotalBatches 3 ([0, 1, 2, 3, 4, 5, 6] : List Nat).length)).map
        (fun i => (formatForMcp 3 ([0, 1, 2, 3, 4, 5, 6] : List Nat) i).batchErrors)).flatten
      = [0, 1, 2, 3, 4, 5, 6] :=
  (c5_batcher 3 [0, 1, 2, 3, 4, 5, 6] (by decide)).2.1

/-! ### Parser lemmas and claims C6, C7 -/

theorem allTestcases_c6Tree : allTestcases c6Tree = [c6Case] := by
  simp [allTestcases, c6Tree, c6Case, xDescList_cons, xDescList_nil]

theorem allTestcases_mkLineZeroCase (msg : List Char) :
    allTestcases (mkLineZeroCase msg) = [tcLineZero msg] := by
  simp [allTestcases, mkLineZeroCase, tcLineZero, xDescList_cons, xDescList_nil]

theorem parseTestcase_tcLineZero (msg : List Char) (h : pyStrip msg ≠ []) :
    parseTestcase (tcLineZero msg)
      = Except.ok (some ⟨pyStrip msg, "F.php".data, fallbackLine (pyStrip msg),
          "t".data, "E".data, "C".data⟩) := by
  have step : parseTestcase (tcLineZero msg)
      = Except.ok (some ⟨pyStrip msg, "F.php".data,
          (if (0 : Int) = 0 ∧ pyStrip msg ≠ [] then
            match findPhpLine (pyStrip msg) with
            | some n => (n : Int)
            | none => (0 : Int)
          else (0 : Int)), "t".data, "E".data, "C".data⟩) := rfl
  rw [step, if_pos (And.intro rfl h)]
  rfl

/-- Claim C6 counterexample: a well-formed report whose testcase carries
`line="abc"` makes `parse_phpunit_xml` raise `ValueError` to its caller
instead of returning an empty list. -/
theorem c6_counterexample :
    parsePhpunitXml (XmlInput.wellFormed c6Tree) = Except.error "ValueError".data := by
  have e1 : parsePhpunitXml (XmlInput.wellFormed c6Tree)
      = Except.bind ((allTestcases c6Tree).mapM parseTestcase)
          (fun results => Except.ok (results.filterMap id, false)) := rfl
  rw [e1, allTestcases_c6Tree]
  rfl

/-- Claim C6 amended: only XML-malformed input is caught — it yields an
empty list with a logged diagnostic and never raises; a well-formed
document with a non-integer `line` attribute raises `ValueError`
(see the counterexample). -/
theorem c6_amended_malformed_safe (raw : List Char) :
    parsePhpunitXml (XmlInput.malformed raw) = Except.ok ([], true) := rfl

/-- Claim C7 counterexample: with structured `line="0"` and message
`failed at Foo.ext:42`, the record's line is 0, not 42 — the fallback
regex only matches `.php:` tokens. -/
theorem c7_counterexample :
    parsePhpunitXml (XmlInput.wellFormed (mkLineZeroCase c7Msg))
      = Except.ok ([⟨c7Msg, "F.php".data, 0, "t".data, "E".data, "C".data⟩], false)
    ∧ (0 : Int) ≠ 42 := by
  constructor
  · have e1 : parsePhpunitXml (XmlInput.wellFormed (mkLineZeroCase c7Msg))
        = Except.bind ((allTestcases (mkLineZeroCase c7Msg)).mapM parseTestcase)
            (fun results => Except.ok (results.filterMap id, false)) := rfl
    rw [e1, allTestcases_mkLineZeroCase]
    rfl
  · decide

/-- Claim C7 amended: for a testcase with `line="0"` and a nonempty
stripped message, the record's line is the number of the first
`\.php:(\d+)` match of the message (`re.search`), or 0 when the message
has no such token; other extensions and later tokens are ignored. -/
theorem c7_amended_first_php (msg : List Char) (h : pyStrip msg ≠ []) :
    parsePhpunitXml (XmlInput.wellFormed (mkLineZeroCase msg))
      = Except.ok ([⟨pyStrip msg, "F.php".data, fallbackLine (pyStrip msg),
          "t".data, "E".data, "C".data⟩], false) := by
  have hmapm : (allTestcases (mkLineZeroCase msg)).mapM parseTestcase
      = Except.ok [some ⟨pyStrip msg, "F.php".data, fallbackLine (pyStrip msg),
          "t".data, "E".data, "C".data⟩] := by
    rw [allTestcases_mkLineZeroCase]
    have e1 : ([tcLineZero msg].mapM parseTestcase : Except (List Char) _)
        = Except.bind (parseTestcase (tcLineZero msg)) (fun b => Except.ok [b]) := rfl
    rw [e1, parseTestcase_tcLineZero msg h]
    rfl
  have e2 : parsePhpunitXml (XmlInput.wellFormed (mkLineZeroCase msg))
      = Except.bind ((allTestcases (mkLineZeroCase msg)).mapM parseTestcase)
          (fun results => Except.ok (results.filterMap id, false)) := rfl
  rw [e2, hmapm]
  rfl

/-- Witness for the amended C7: a message with two `.php` tokens yields
the first number, 10. -/
theorem c7_amended_first_php_witness :
    parsePhpunitXml (XmlInput.wellFormed (mkLineZeroCase c7TwoMsg))
      = Except.ok ([⟨pyStrip c7TwoMsg, "F.php".data, fallbackLine (pyStrip c7TwoMsg),
          "t".data, "E".data, "C".data⟩], false)
    ∧ fallbackLine (pyStrip c7TwoMsg) = 10 :=
  ⟨c7_amended_first_php c7TwoMsg (by decide), by decide⟩

/-! ### Iteration loop lemmas and claim C8 -/

theorem processLoop_fail (cb : Collab)
    (hf : ∀ k, cb.exitCode k ≠ 0) (hb : ∀ k, cb.numBatches k = 0) :
    ∀ (m n j : Nat), processLoop cb m n j = (false, n + 2 * m) := by
  intro m
  induction m with
  | zero =>
    intro n j
    simp [processLoop]
  | succ m ih =>
    intro n j
    have hone : oneIteration cb n j = (false, n + 2, j) := by
      unfold oneIteration
      rw [if_neg (hf (n + 1)), hb (n + 1)]
      simp [processBatchesAux]
    rw [processLoop, hone]
    show processLoop cb m (n + 2) j = (false, n + 2 * (m + 1))
    rw [ih (n + 2) j]
    congr 1
    omega

/-- Claim C8 counterexample: with one allowed iteration and a runner that
always fails producing no batches, the loop performs 2 runner
invocations, not 1, before giving up. -/
theorem c8_counterexample :
    (processPhpunitErrors cbAlwaysFail 1).1 = false
    ∧ (processPhpunitErrors cbAlwaysFail 1).2 = 2
    ∧ (2 : Nat) ≠ 1 := by
  decide

/-- Claim C8 amended: when every test run fails and no failure batches
are produced, `process_phpunit_errors` gives up unsuccessfully after
exactly `max_iterations` loop iterations, but each iteration invokes the
external runner twice (the raw-output run and the structured run), for a
total of exactly `2 * max_iterations` run-test invocations. -/
theorem c8_amended_two_runs (cb : Collab) (M : Nat)
    (hf : ∀ k, cb.exitCode k ≠ 0) (hb : ∀ k, cb.numBatches k = 0) :
    processPhpunitErrors cb M = (false, 2 * M) := by
  unfold processPhpunitErrors
  simpa using processLoop_fail cb hf hb M 0 0

/-- Witness for the amended C8 at three iterations: six runner calls. -/
theorem c8_amended_two_runs_witness :
    processPhpunitErrors cbAlwaysFail 3 = (false, 6) := by
  have h := c8_amended_two_runs cbAlwaysFail 3
    (by intro k; simp [cbAlwaysFail]) (by intro k; simp [cbAlwaysFail])
  simpa using h

/-! ### Method tier lemmas and claim C9 -/

theorem firstExactlyOne_mem (content : List Char) :
    ∀ (pats : List (List Char → Option Nat)) (mt : List Char),
      firstExactlyOne content pats = some mt →
      ∃ m ∈ pats, findMatches content m = [mt] := by
  intro pats
  induction pats with
  | nil =>
    intro mt h
    simp [firstExactlyOne] at h
  | cons m rest ih =>
    intro mt h
    rw [firstExactlyOne] at h
    cases hfm : findMatches content m with
    | nil =>
      rw [hfm] at h
      obtain ⟨m', hm', he⟩ := ih mt h
      exact ⟨m', List.mem_cons_of_mem _ hm', he⟩
    | cons x tail =>
      cases tail with
      | nil =>
        rw [hfm] at h
        cases h
        exact ⟨m, List.mem_cons_self _ _, hfm⟩
      | cons y tail2 =>
        rw [hfm] at h
        obtain ⟨m', hm', he⟩ := ih mt h
        exact ⟨m', List.mem_cons_of_mem _ hm', he⟩

/-- Claim C9 counterexample: the identifier `f` extracted from the search
text matches two declarations in the file, yet the method tier still
performs a replacement (through the more specific `public` pattern)
instead of falling through. -/
theorem c9_counterexample :
    occursIn c9Search c9Content = false
    ∧ (findMatches c9Content (matchCoreAt "f".data)).length = 2
    ∧ methodTierMatch c9Content c9Search = some c9Matched
    ∧ (applyFixResolved oTrue uiSkip ["p.php".data] c9Content c9Search c9Repl).ok = true
    ∧ finalContent c9Content ["p.php".data]
        (applyFixResolved oTrue uiSkip ["p.php".data] c9Content c9Search c9Repl).writes
      ≠ c9Content := by
  decide

/-- Claim C9 amended: the method tier tries its four declaration patterns
in order and replaces only when some pattern yields exactly one match —
the matched text of the first such pattern; a pattern with several
matches is passed over rather than aborting the tier, so an identifier
with several declarations can still be replaced via a more specific
prefixed pattern. -/
theorem c9_amended_unique_pattern (content search name mt : List Char)
    (h : extractFunctionName search = some name)
    (hm : methodTierMatch content search = some mt) :
    ∃ m ∈ methodPatterns name, findMatches content m = [mt] := by
  unfold methodTierMatch at hm
  rw [h] at hm
  exact firstExactlyOne_mem content (methodPatterns name) mt hm

/-- Witness for the amended C9 at the two-declaration example. -/
theorem c9_amended_unique_pattern_witness :
    ∃ m ∈ methodPatterns "f".data, findMatches c9Content m = [c9Matched] :=
  c9_amended_unique_pattern c9Content c9Search "f".data c9Matched (by decide) (by decide)

/-! ### Claim C10 -/

/-- Claim C10: a successful oracle reply from which zero directives were
parsed degrades to advisory-only behaviour — the filename scan of the
reply text is only reported and no fix is applied; an unsuccessful reply
applies and reports nothing. -/
theorem c10_advisory_only (applyOk : EditFix → Bool) (applyDecision : Bool)
    (reply : OracleReply) (h : reply.fixes = []) :
    handleOracleReply applyOk applyDecision reply
      = ([], if reply.success then scanPotentialFiles reply.message else []) := by
  unfold handleOracleReply
  rw [h]
  by_cases hs : reply.success = true
  · simp [hs]
  · simp [hs]

/-- Witness for C10: a fix-free reply mentioning `Calculator.php` reports
just that filename and applies nothing. -/
theorem c10_advisory_only_witness :
    handleOracleReply (fun _ => true) true replyNoFixes
      = ([], ["Calculator.php".data]) := by
  have h := c10_advisory_only (fun _ => true) true replyNoFixes rfl
  rw [h]
  decide
